import Mathlib

/-!
# Verification of the PGI-DEPARTMENT-FINDER matching core

A shallow embedding, in Lean 4, of the search core of `app.py`:
the query sanitizer `sanitize_query`, the AEC matcher `search_aec`, and the
PGI matcher `search_pgi`.  Python strings are modelled as Lean `String`
(a wrapper around `List Char`), restricted to the ASCII behaviour of the
Python string methods involved (`strip`, `upper`, `lower`, `isdigit`,
`split`, `replace`, substring membership, and the regexes `\d+`, `\b` and
the sanitizer's character class).  The record stores are explicit lists
passed as arguments; the fuzzy scorer (`rapidfuzz.fuzz.token_set_ratio`,
a third-party library, values on a 0-100 scale) is an explicit function
parameter of type `String → String → ℚ`, so every theorem below holds for
an arbitrary scorer.
-/

/-- The whitespace characters stripped by Python's `str.strip()` and matched
by the regex class `\s` (ASCII fragment). -/
def pySpace (c : Char) : Bool :=
  c = ' ' || c = '\t' || c = '\n' || c = '\r' || c = '\x0b' || c = '\x0c'

/-- `str.strip()` on a character list: drop whitespace from both ends. -/
def stripList (l : List Char) : List Char :=
  ((l.dropWhile pySpace).reverse.dropWhile pySpace).reverse

/-- Python `s.strip()`. -/
def pyStrip (s : String) : String := String.mk (stripList s.data)

/-- Python `s.upper()` (ASCII). -/
def pyUpper (s : String) : String := String.mk (s.data.map Char.toUpper)

/-- Python `s.lower()` (ASCII). -/
def pyLower (s : String) : String := String.mk (s.data.map Char.toLower)

/-- Python substring membership `needle in hay` on character lists. -/
def pyContains (needle hay : List Char) : Bool := decide (needle <:+: hay)

/-- Python `s.split(sep)` for a one-character separator: `""` splits to
`[""]`, and every separator occurrence cuts, so adjacent separators give
empty parts. -/
def splitOnChar (sep : Char) : List Char → List (List Char)
  | [] => [[]]
  | c :: rest =>
    let r := splitOnChar sep rest
    if c = sep then [] :: r
    else
      match r with
      | [] => [[c]]
      | h :: t => (c :: h) :: t

/-- Numeric value of an ASCII digit character. -/
def digitVal (c : Char) : Nat := c.toNat - 48

/-- Decimal value of a digit string, as computed by Python `int(s)` on a
string that passes `s.isdigit()`. -/
def digitsToNat (l : List Char) : Nat := l.foldl (fun n c => n * 10 + digitVal c) 0

/-- Python `s.isdigit()` (ASCII): non-empty and all decimal digits. -/
def isDigitStr (l : List Char) : Bool := !l.isEmpty && l.all Char.isDigit

/-- Python `range(a, b + 1)` as a list: the integers from `a` to `b`
inclusive, empty when `a > b`. -/
def pyRange (a b : Nat) : List Nat := List.range' a (b + 1 - a)

/-- Python `s.replace(x, '')` for a one-character pattern: remove every
occurrence of `x`, wherever it appears. -/
def removeAll (x : Char) (l : List Char) : List Char := l.filter (fun c => c ≠ x)

/-- All integer tokens of a string, as Python `re.findall(r'\d+', s)`
followed by `int`: maximal runs of consecutive digits, in order.  The
accumulator holds the value of the digit run currently being read. -/
def extractNumsAux : List Char → Option Nat → List Nat
  | [], none => []
  | [], some n => [n]
  | c :: rest, cur =>
    if c.isDigit then extractNumsAux rest (some ((cur.getD 0) * 10 + digitVal c))
    else
      match cur with
      | none => extractNumsAux rest none
      | some n => n :: extractNumsAux rest none

/-- `[int(s) for s in re.findall(r'\d+', l)]`. -/
def extractNums (l : List Char) : List Nat := extractNumsAux l none

/-- One comma-separated part of a PGI `counters` string, as parsed inside
`search_pgi` (app.py lines 163-173): the part is stripped; if it contains a
hyphen it must split into exactly two all-digit pieces and then yields the
inclusive range (any other shape, including the `ValueError` of a
multi-hyphen unpack, is silently skipped); otherwise every `'A'` character
is removed (`part.replace('A', '')`) and the remainder, if all digits,
yields a single integer. -/
def parseCounterPart (p0 : List Char) : List Nat :=
  let p := stripList p0
  if p.contains '-' then
    match splitOnChar '-' p with
    | [a, b] =>
      if isDigitStr a && isDigitStr b then pyRange (digitsToNat a) (digitsToNat b) else []
    | _ => []
  else
    let r := removeAll 'A' p
    if isDigitStr r then [digitsToNat r] else []

/-- The full `counters` parse of `search_pgi`: split on commas and collect
every part's contribution. -/
def parseCounters (s : List Char) : List Nat :=
  (splitOnChar ',' s).flatMap parseCounterPart

/-- Modelled from the claim's words, NOT from the code: each comma-separated
part (stripped) contributes either a single integer with a trailing `'A'`
suffix stripped before parsing, or the inclusive range between two
hyphen-separated integers; malformed parts are silently skipped. -/
def claimCounterPart (p0 : List Char) : List Nat :=
  let p := stripList p0
  match splitOnChar '-' p with
  | [a, b] =>
    if isDigitStr a && isDigitStr b then pyRange (digitsToNat a) (digitsToNat b) else []
  | [x] =>
    let r := if x.getLast? = some 'A' then x.dropLast else x
    if isDigitStr r then [digitsToNat r] else []
  | _ => []

/-- The counters parse as the claim describes it. -/
def claimParseCounters (s : List Char) : List Nat :=
  (splitOnChar ',' s).flatMap claimCounterPart

/-- Modelled from the amended claim's words: as `claimCounterPart`, except
that a single-integer part has EVERY `'A'` character removed (anywhere in
the part, not only a trailing suffix) before the all-digits test. -/
def amendedCounterPart (p0 : List Char) : List Nat :=
  let p := stripList p0
  match splitOnChar '-' p with
  | [a, b] =>
    if isDigitStr a && isDigitStr b then pyRange (digitsToNat a) (digitsToNat b) else []
  | [x] =>
    let r := removeAll 'A' x
    if isDigitStr r then [digitsToNat r] else []
  | _ => []

/-- The counters parse as the amended claim describes it. -/
def amendedParseCounters (s : List Char) : List Nat :=
  (splitOnChar ',' s).flatMap amendedCounterPart

theorem splitOnChar_ne_nil (sep : Char) (l : List Char) : splitOnChar sep l ≠ [] := by
  induction l with
  | nil => simp [splitOnChar]
  | cons c rest ih =>
    simp only [splitOnChar]
    by_cases h : c = sep
    · simp [h]
    · simp only [if_neg h]
      rcases hr : splitOnChar sep rest with _ | ⟨x, t⟩
      · simp
      · simp

theorem splitOnChar_of_not_contains (sep : Char) (l : List Char)
    (h : l.contains sep = false) : splitOnChar sep l = [l] := by
  induction l with
  | nil => rfl
  | cons c rest ih =>
    simp only [List.contains_cons, Bool.or_eq_false_iff, beq_eq_false_iff_ne] at h
    simp only [splitOnChar, if_neg (Ne.symm h.1), ih h.2]

theorem two_le_splitOnChar_length (sep : Char) (l : List Char)
    (h : l.contains sep = true) : 2 ≤ (splitOnChar sep l).length := by
  induction l with
  | nil => simp [List.contains] at h
  | cons c rest ih =>
    simp only [splitOnChar]
    by_cases hc : c = sep
    · simp only [if_pos hc, List.length_cons]
      have h1 : splitOnChar sep rest ≠ [] := splitOnChar_ne_nil sep rest
      have h2 : 0 < (splitOnChar sep rest).length := List.length_pos.mpr h1
      omega
    · simp only [List.contains_cons] at h
      have hrest : rest.contains sep = true := by
        rcases Bool.or_eq_true_iff.mp h with h' | h'
        · exact absurd (beq_iff_eq.mp h').symm hc
        · exact h'
      simp only [if_neg hc]
      rcases hr : splitOnChar sep rest with _ | ⟨x, t⟩
      · exact absurd hr (splitOnChar_ne_nil sep rest)
      · have := ih hrest
        rw [hr] at this
        simpa using this

theorem parseCounterPart_eq_amended (p : List Char) :
    parseCounterPart p = amendedCounterPart p := by
  simp only [parseCounterPart, amendedCounterPart]
  by_cases h : (stripList p).contains '-' = true
  · rw [if_pos h]
    have hlen := two_le_splitOnChar_length '-' (stripList p) h
    rcases hs : splitOnChar '-' (stripList p) with _ | ⟨a, _ | ⟨b, _ | ⟨x, t⟩⟩⟩
    · rfl
    · rw [hs] at hlen
      simp at hlen
    · rfl
    · rfl
  · rw [if_neg h]
    rw [splitOnChar_of_not_contains '-' (stripList p) (Bool.not_eq_true _ ▸ eq_false_of_ne_true h)]

theorem parseCounters_eq_amended (s : List Char) :
    parseCounters s = amendedParseCounters s := by
  unfold parseCounters amendedParseCounters
  generalize splitOnChar ',' s = L
  induction L with
  | nil => rfl
  | cons p t ih => simp [List.flatMap_cons, parseCounterPart_eq_amended, ih]

/-- An AEC record as loaded by `load_aec_data` (all fields strings). -/
structure AECRecord where
  floor : String
  block_area : String
  room_counter_no : String
  operating_days : String
  department : String
  notes : String
deriving DecidableEq

/-- A PGI record as loaded by `load_pgi_data`.  `level` is the optional
integer derived from the floor text via `FLOOR_MAP`. -/
structure PGIRecord where
  level : Option Nat
  original_floor_text : String
  room_no : String
  block : String
  days : String
  building : String
  department : String
  notes : String
  opd_type : String
  doctors : String
  counters : String
deriving DecidableEq

/-- The character class kept by `sanitize_query`'s regex
`[^a-zA-Z0-9\s\-.,&:;'"()/A-Za-z0-9]` (the letter and digit ranges are
listed twice in the source regex, mirrored here). -/
def pyAllowedChar (c : Char) : Bool :=
  c.isLower || c.isUpper || c.isDigit || pySpace c ||
  c = '-' || c = '.' || c = ',' || c = '&' || c = ':' || c = ';' ||
  c = '\'' || c = '"' || c = '(' || c = ')' || c = '/' ||
  c.isUpper || c.isLower || c.isDigit

/-- Modelled from the claim's words: letters, digits, whitespace characters,
and the punctuation characters `- . , & : ; ' " ( ) /`. -/
def claimAllowedChar (c : Char) : Bool :=
  c.isAlpha || c.isDigit || pySpace c ||
  c = '-' || c = '.' || c = ',' || c = '&' || c = ':' || c = ';' ||
  c = '\'' || c = '"' || c = '(' || c = ')' || c = '/'

/-- `sanitize_query(q)`: keep only the allowed characters, truncate to 100;
a falsy input (absent, or the empty string) yields the empty string. -/
def sanitize_query : Option String → String
  | none => ""
  | some s => if s = "" then "" else String.mk ((s.data.filter pyAllowedChar).take 100)

/-- A regex word character `\w` (ASCII): letter, digit or underscore. -/
def isWordChar (c : Char) : Bool := c.isAlphanum || c = '_'

/-- Whether position `i` of `hay` holds a word character (out of range
counts as non-word, as at the ends of a regex subject). -/
def wordAt (hay : List Char) (i : Nat) : Bool := isWordChar (hay.getD i ' ')

/-- A regex word boundary `\b` at position `i` (between `hay[i-1]` and
`hay[i]`): exactly one side is a word character. -/
def boundaryAt (hay : List Char) (i : Nat) : Bool :=
  (if i = 0 then false else wordAt hay (i - 1)) != wordAt hay i

/-- `re.search(r'\b' + re.escape(pat) + r'\b', hay)`: the literal `pat`
occurs at some position with word boundaries on both sides. -/
def wholeWordSearch (pat hay : List Char) : Bool :=
  (List.range (hay.length + 1)).any (fun i =>
    decide ((hay.drop i).take pat.length = pat) && boundaryAt hay i &&
      boundaryAt hay (i + pat.length))

/-- Phase-1 test of `search_aec` (app.py lines 110-115): the upper-cased
department or notes equals the processed query, with or without periods
removed from both sides. -/
def aecExact (q : String) (e : AECRecord) : Bool :=
  let dept := pyUpper e.department
  let notes := pyUpper e.notes
  dept == q || String.mk (removeAll '.' dept.data) == String.mk (removeAll '.' q.data) ||
  notes == q || String.mk (removeAll '.' notes.data) == String.mk (removeAll '.' q.data)

/-- Phase-2 test of `search_aec` (lines 120-124): the period-stripped query
appears as a whole word in the period-stripped upper-cased department, or in
the notes when the notes field is non-empty. -/
def aecWholeWord (q : String) (e : AECRecord) : Bool :=
  let pat := removeAll '.' q.data
  wholeWordSearch pat (removeAll '.' (pyUpper e.department).data) ||
  (!(e.notes == "") && wholeWordSearch pat (removeAll '.' (pyUpper e.notes).data))

/-- Phase-3 test of `search_aec` (lines 129-132): plain substring in the
upper-cased department, or in the notes when non-empty. -/
def aecSubstr (q : String) (e : AECRecord) : Bool :=
  pyContains q.data (pyUpper e.department).data ||
  (!(e.notes == "") && pyContains q.data (pyUpper e.notes).data)

/-- The fuzzy candidate pool of `search_aec` (lines 137-138): all department
strings plus all non-empty notes strings, deduplicated (`list(set(...))`). -/
def aecPool (store : List AECRecord) : List String :=
  (store.map (fun e => e.department) ++
    (store.filter (fun e => !(e.notes == ""))).map (fun e => e.notes)).dedup

/-- Best-candidate scan of `rapidfuzz.process.extractOne`: the first
candidate is the initial best and a later candidate replaces it only with a
strictly larger score. -/
def extractOneAux (scorer : String → String → ℚ) (q : String) :
    List String → String × ℚ → String × ℚ
  | [], best => best
  | c :: rest, best =>
    if scorer q c > best.2 then extractOneAux scorer q rest (c, scorer q c)
    else extractOneAux scorer q rest best

/-- `process.extractOne(q, cands, scorer)`: `none` exactly when there are no
candidates, otherwise the best `(candidate, score)` pair. -/
def extractOne (scorer : String → String → ℚ) (q : String) :
    List String → Option (String × ℚ)
  | [] => none
  | c :: rest => some (extractOneAux scorer q rest (c, scorer q c))

/-- `search_aec` (app.py lines 102-142).  The store is the `aec_data` list;
the scorer stands for `fuzz.token_set_ratio`. -/
def searchAEC (scorer : String → String → ℚ) (store : List AECRecord)
    (query : String) : List AECRecord × Option String :=
  let q := pyUpper (pyStrip query)
  if q = "" ∨ store = [] then ([], none)
  else
    let exact := store.filter (aecExact q)
    if exact = [] then
      let ww := store.filter (aecWholeWord q)
      if ww = [] then
        let sub := store.filter (aecSubstr q)
        if sub = [] then
          match extractOne scorer q (aecPool store) with
          | some m => ([], if m.2 > 70 then some m.1 else none)
          | none => ([], none)
        else (sub, none)
      else (ww, none)
    else (exact, none)

/-- The five fields scanned by `search_pgi`'s phase-2b loop, in source
order (app.py line 202). -/
def pgiTextFields (e : PGIRecord) : List String :=
  [e.department, e.doctors, e.notes, e.block, e.building]

/-- Phase-2a test of `search_pgi` (lines 195-198): lower-cased query is a
substring of the lower-cased department. -/
def pgiDeptHit (ql : String) (e : PGIRecord) : Bool :=
  pyContains ql.data (pyLower e.department).data

/-- Phase-2b test of `search_pgi` (lines 202-208): scan the five fields in
order and stop at the first whose lower-cased text contains the query
(`find?` models the loop's `break`; the record is appended exactly when some
field hits). -/
def pgiFieldHit (ql : String) (e : PGIRecord) : Bool :=
  ((pgiTextFields e).find? (fun f => pyContains ql.data (pyLower f).data)).isSome

/-- Numeric test of one record in `search_pgi`'s digit phase (lines
158-190): counters first (when non-empty), then integer tokens of the room
number (when non-empty), then integer tokens of the department name; the
`continue` after each hit makes one append per record. -/
def pgiNumericHit (qnums : List Nat) (e : PGIRecord) : Bool :=
  (!(e.counters == "") && qnums.any (fun n => (parseCounters e.counters.data).contains n)) ||
  (!(e.room_no == "") && qnums.any (fun n => (extractNums e.room_no.data).contains n)) ||
  qnums.any (fun n => (extractNums e.department.data).contains n)

/-- All records hit by the numeric phase, for the trimmed query `qt`. -/
def pgiNumericMatches (store : List PGIRecord) (qt : String) : List PGIRecord :=
  store.filter (pgiNumericHit (extractNums qt.data))

/-- `search_pgi`'s text cascade (lines 193-215): department substring, then
the five-field scan, then a fuzzy suggestion over non-empty department names
when the trimmed query is longer than 2 characters and the best score
exceeds 65.  `qt` is the trimmed query, `ql` its lower-casing. -/
def pgiTextPhase (scorer : String → String → ℚ) (store : List PGIRecord)
    (qt ql : String) : List PGIRecord × String :=
  let p1 := store.filter (pgiDeptHit ql)
  if p1 = [] then
    let p2 := store.filter (pgiFieldHit ql)
    if p2 = [] then
      if 2 < qt.length then
        let names := (store.filter (fun e => !(e.department == ""))).map (fun e => e.department)
        match extractOne scorer qt names with
        | some m => ([], if m.2 > 65 then m.1 else "")
        | none => ([], "")
      else ([], "")
    else (p2, "")
  else (p1, "")

/-- `search_pgi` (app.py lines 144-217).  The emptiness guard runs on the
raw query; the digit test and all later phases use the stripped query. -/
def searchPGI (scorer : String → String → ℚ) (store : List PGIRecord)
    (query : String) : List PGIRecord × String :=
  if query = "" ∨ store = [] then ([], "")
  else
    let qt := pyStrip query
    let ql := pyLower qt
    let numeric := if qt.data.any Char.isDigit then pgiNumericMatches store qt else []
    if numeric = [] then pgiTextPhase scorer store qt ql else (numeric, "")

theorem find_isSome_eq_any {α : Type} (l : List α) (p : α → Bool) :
    (l.find? p).isSome = l.any p := by
  induction l with
  | nil => rfl
  | cons a t ih =>
    by_cases h : p a = true
    · simp [List.find?_cons, h]
    · simp only [Bool.not_eq_true] at h
      simp [List.find?_cons, h, ih]

theorem stripList_eq_nil_of_all (l : List Char) (h : ∀ c ∈ l, pySpace c = true) :
    stripList l = [] := by
  unfold stripList
  rw [List.dropWhile_eq_nil_iff.mpr h]
  rfl

theorem extractOneAux_spec (scorer : String → String → ℚ) (q : String) :
    ∀ (l : List String) (b : String × ℚ),
      (extractOneAux scorer q l b = b ∨
        ((extractOneAux scorer q l b).1 ∈ l ∧
          (extractOneAux scorer q l b).2 = scorer q (extractOneAux scorer q l b).1)) ∧
      b.2 ≤ (extractOneAux scorer q l b).2 ∧
      ∀ c ∈ l, scorer q c ≤ (extractOneAux scorer q l b).2 := by
  intro l
  induction l with
  | nil => exact fun b => ⟨Or.inl rfl, le_refl _, by simp⟩
  | cons c rest ih =>
    intro b
    by_cases h : scorer q c > b.2
    · have hres : extractOneAux scorer q (c :: rest) b =
          extractOneAux scorer q rest (c, scorer q c) := by
        simp [extractOneAux, h]
      obtain ⟨hmem, hle, hall⟩ := ih (c, scorer q c)
      rw [hres]
      refine ⟨?_, ?_, ?_⟩
      · rcases hmem with he | ⟨h1, h2⟩
        · exact Or.inr ⟨by rw [he]; exact List.mem_cons_self c rest, by rw [he]⟩
        · exact Or.inr ⟨List.mem_cons_of_mem c h1, h2⟩
      · exact le_of_lt (lt_of_lt_of_le h hle)
      · intro x hx
        rcases List.mem_cons.mp hx with hx | hx
        · rw [hx]; exact hle
        · exact hall x hx
    · have hres : extractOneAux scorer q (c :: rest) b = extractOneAux scorer q rest b := by
        simp [extractOneAux, h]
      obtain ⟨hmem, hle, hall⟩ := ih b
      rw [hres]
      refine ⟨?_, hle, ?_⟩
      · rcases hmem with he | ⟨h1, h2⟩
        · exact Or.inl he
        · exact Or.inr ⟨List.mem_cons_of_mem c h1, h2⟩
      · intro x hx
        rcases List.mem_cons.mp hx with hx | hx
        · rw [hx]; exact le_trans (le_of_not_lt h) hle
        · exact hall x hx

theorem extractOne_spec (scorer : String → String → ℚ) (q : String)
    (cands : List String) (m : String × ℚ) (h : extractOne scorer q cands = some m) :
    m.2 = scorer q m.1 ∧ m.1 ∈ cands ∧ ∀ c ∈ cands, scorer q c ≤ m.2 := by
  cases cands with
  | nil => exact absurd h (by simp [extractOne])
  | cons c rest =>
    have hm : m = extractOneAux scorer q rest (c, scorer q c) := by
      have := h
      simp only [extractOne, Option.some.injEq] at this
      exact this.symm
    obtain ⟨hmem, hle, hall⟩ := extractOneAux_spec scorer q rest (c, scorer q c)
    subst hm
    refine ⟨?_, ?_, ?_⟩
    · rcases hmem with he | ⟨_, h2⟩
      · rw [he]
      · exact h2
    · rcases hmem with he | ⟨h1, _⟩
      · rw [he]; exact List.mem_cons_self c rest
      · exact List.mem_cons_of_mem c h1
    · intro x hx
      rcases List.mem_cons.mp hx with hx | hx
      · rw [hx]; exact hle
      · exact hall x hx

theorem pyAllowed_eq_claimAllowed (c : Char) : pyAllowedChar c = claimAllowedChar c := by
  unfold pyAllowedChar claimAllowedChar Char.isAlpha
  cases hl : c.isLower <;> cases hu : c.isUpper <;> cases hd : c.isDigit <;> simp [hl, hu, hd]

theorem searchAEC_fst_sublist (scorer : String → String → ℚ) (store : List AECRecord)
    (q : String) : (searchAEC scorer store q).1.Sublist store := by
  simp only [searchAEC]
  split
  · exact List.nil_sublist _
  · split
    · split
      · split
        · split
          · exact List.nil_sublist _
          · exact List.nil_sublist _
        · exact List.filter_sublist _
      · exact List.filter_sublist _
    · exact List.filter_sublist _

theorem pgiTextPhase_fst_sublist (scorer : String → String → ℚ) (store : List PGIRecord)
    (qt ql : String) : (pgiTextPhase scorer store qt ql).1.Sublist store := by
  simp only [pgiTextPhase]
  split
  · split
    · split
      · split
        · exact List.nil_sublist _
        · exact List.nil_sublist _
      · exact List.nil_sublist _
    · exact List.filter_sublist _
  · exact List.filter_sublist _

theorem searchPGI_fst_sublist (scorer : String → String → ℚ) (store : List PGIRecord)
    (q : String) : (searchPGI scorer store q).1.Sublist store := by
  simp only [searchPGI]
  split
  · exact List.nil_sublist _
  · split
    · split
      · exact pgiTextPhase_fst_sublist _ _ _ _
      · exact List.filter_sublist _
    · split
      · exact pgiTextPhase_fst_sublist _ _ _ _
      · exact List.nil_sublist _

/-- C1 (counterexample): the claim describes the single-integer case as
stripping only a TRAILING `'A'` suffix, under which the part `"A9"` is
malformed and contributes nothing; the code instead removes every `'A'`
character (`part.replace('A', '')`), so `search_pgi` parses the counters
string `"A9"` to the integer 9 while the claim's parse yields the empty
set. -/
theorem c1_counterexample :
    parseCounters "A9".data = [9] ∧ claimParseCounters "A9".data = [] := by
  decide

/-- C1 (amended): for every counters string the parse of `search_pgi` is
exactly the amended claim's parse — each comma-separated part, stripped,
contributes either the inclusive range between two hyphen-separated
integers, or a single integer after removing every `'A'` character
(anywhere in the part); malformed parts are silently skipped.  Moreover
`"9A"` parses to 9, and the parse of `"10-15,20"` contains 12 but not
16. -/
theorem c1_counters :
    (∀ s : List Char, parseCounters s = amendedParseCounters s) ∧
    parseCounters "9A".data = [9] ∧
    12 ∈ parseCounters "10-15,20".data ∧ 16 ∉ parseCounters "10-15,20".data :=
  ⟨parseCounters_eq_amended, by decide, by decide, by decide⟩

/-- C5: for every input, `sanitize_query` returns at most 100 characters,
all of them letters, digits, whitespace or one of the punctuation
characters `- . , & : ; ' " ( ) /`; the output on a present input is
exactly the first 100 allowed characters of it, and an absent (None or
empty) input yields the empty string.  The function is a total Lean
function, so it raises no error. -/
theorem c5_sanitize :
    (∀ q : Option String, (sanitize_query q).length ≤ 100 ∧
      ∀ c ∈ (sanitize_query q).data, claimAllowedChar c = true) ∧
    (∀ s : String, sanitize_query (some s) =
      String.mk ((s.data.filter claimAllowedChar).take 100)) ∧
    sanitize_query none = "" ∧ sanitize_query (some "") = "" := by
  have hfe : ∀ l : List Char, l.filter pyAllowedChar = l.filter claimAllowedChar :=
    fun l => List.filter_congr (fun c _ => pyAllowed_eq_claimAllowed c)
  refine ⟨?_, ?_, rfl, by simp [sanitize_query]⟩
  · intro q
    cases q with
    | none => exact ⟨by simp [sanitize_query], by simp [sanitize_query]⟩
    | some s =>
      by_cases hs : s = ""
      · subst hs
        exact ⟨by simp [sanitize_query], by simp [sanitize_query]⟩
      · constructor
        · simp only [sanitize_query, if_neg hs, String.length]
          simp only [List.length_take]
          exact min_le_left 100 (s.data.filter pyAllowedChar).length
        · intro c hc
          simp only [sanitize_query, if_neg hs] at hc
          have h1 : c ∈ s.data.filter pyAllowedChar := List.mem_of_mem_take hc
          have h2 := List.of_mem_filter h1
          rwa [pyAllowed_eq_claimAllowed] at h2
  · intro s
    by_cases hs : s = ""
    · subst hs
      simp [sanitize_query]
    · simp only [sanitize_query, if_neg hs, hfe]

/-- C7: an empty query string or an empty record store yields `([], none)`
from `searchAEC` and `([], "")` from `searchPGI`; both functions are total,
so no error is raised. -/
theorem c7_empty_inputs :
    ∀ (scorer : String → String → ℚ) (storeA : List AECRecord)
      (storeP : List PGIRecord) (qa qp : String),
      searchAEC scorer storeA "" = ([], none) ∧
      searchAEC scorer [] qa = ([], none) ∧
      searchPGI scorer storeP "" = ([], "") ∧
      searchPGI scorer [] qp = ([], "") := by
  intro scorer storeA storeP qa qp
  refine ⟨?_, ?_, ?_, ?_⟩
  · have h : pyUpper (pyStrip "") = "" := by decide
    simp [searchAEC, h]
  · simp [searchAEC]
  · simp [searchPGI]
  · simp [searchPGI]

/-- C9: for every store and query, the match list of each search function is
a sublist of the store: records come back in load order and each store
occurrence contributes at most once, in every phase. -/
theorem c9_results_sublist :
    ∀ (scorer : String → String → ℚ) (storeA : List AECRecord)
      (storeP : List PGIRecord) (q : String),
      (searchAEC scorer storeA q).1.Sublist storeA ∧
      (searchPGI scorer storeP q).1.Sublist storeP :=
  fun scorer sA sP q => ⟨searchAEC_fst_sublist scorer sA q, searchPGI_fst_sublist scorer sP q⟩

/-- C10: both search functions are pure functions of the store contents and
the query (the embedding carries no other state, and the Python code
mutates only its local variables), so two invocations with the same
arguments return identical match lists, orders and suggestions. -/
theorem c10_idempotent :
    ∀ (scorer : String → String → ℚ) (storeA : List AECRecord)
      (storeP : List PGIRecord) (q : String),
      searchAEC scorer storeA q = searchAEC scorer storeA q ∧
      searchPGI scorer storeP q = searchPGI scorer storeP q :=
  fun _ _ _ _ => ⟨rfl, rfl⟩

/-- A constant scorer used to instantiate the scorer parameter in witness
statements. -/
def constScorer : String → String → ℚ := fun _ _ => 0

/-- A concrete PGI record used in witness instantiations. -/
def pgiRecA : PGIRecord :=
  ⟨none, "", "12", "BLOCK B", "", "NEHRU", "CARDIOLOGY", "", "", "DR X", "10-15,20"⟩

/-- A concrete AEC record whose department exactly matches a query up to
case and periods. -/
def aecRecA : AECRecord := ⟨"1", "A", "R1", "Mon", "E.N.T. Department", ""⟩

/-- A concrete AEC record matched by no phase for the query used in the
fuzzy witness. -/
def aecRecB : AECRecord := ⟨"2", "B", "R2", "Tue", "ABC", ""⟩

/-- C2: for a non-empty query and store, `searchPGI` runs its numeric phase
exactly when the trimmed query contains a digit: with no digit the result is
the text phase verbatim, and when the numeric phase yields at least one
match the result is exactly those matches with the empty suggestion — the
text phase is never consulted. -/
theorem c2_numeric_gate :
    ∀ (scorer : String → String → ℚ) (store : List PGIRecord) (q : String),
      q ≠ "" → store ≠ [] →
      ((pyStrip q).data.any Char.isDigit = false →
        searchPGI scorer store q =
          pgiTextPhase scorer store (pyStrip q) (pyLower (pyStrip q))) ∧
      ((pyStrip q).data.any Char.isDigit = true →
        pgiNumericMatches store (pyStrip q) ≠ [] →
        searchPGI scorer store q = (pgiNumericMatches store (pyStrip q), "")) := by
  intro scorer store q hq hs
  have hguard : ¬ (q = "" ∨ store = []) := by simp [hq, hs]
  constructor
  · intro hd
    simp [searchPGI, if_neg hguard, hd]
  · intro hd hne
    simp [searchPGI, if_neg hguard, hd, hne]

theorem c2_witness :
    ("counter 12" ≠ "" ∧ ([pgiRecA] : List PGIRecord) ≠ [] ∧
      (pyStrip "counter 12").data.any Char.isDigit = true ∧
      pgiNumericMatches [pgiRecA] (pyStrip "counter 12") ≠ []) ∧
    searchPGI constScorer [pgiRecA] "counter 12" =
      (pgiNumericMatches [pgiRecA] (pyStrip "counter 12"), "") :=
  ⟨by decide,
   (c2_numeric_gate constScorer [pgiRecA] "counter 12" (by decide) (by decide)).2
     (by decide) (by decide)⟩

/-- C3: with a non-empty store and a query whose trimmed upper-casing is
non-empty, if some record passes the phase-1 exact test (department or
notes equal to the processed query, with or without periods), then
`searchAEC` returns exactly the list of phase-1 matches in store order with
no suggestion; phases 2-4 contribute nothing to the result. -/
theorem c3_aec_exact_phase :
    ∀ (scorer : String → String → ℚ) (store : List AECRecord) (query : String),
      pyUpper (pyStrip query) ≠ "" → store ≠ [] →
      (∃ e ∈ store, aecExact (pyUpper (pyStrip query)) e = true) →
      searchAEC scorer store query =
        (store.filter (aecExact (pyUpper (pyStrip query))), none) := by
  intro scorer store query hq hs hex
  obtain ⟨e, he, hx⟩ := hex
  have hguard : ¬ (pyUpper (pyStrip query) = "" ∨ store = []) := by simp [hq, hs]
  have hne : store.filter (aecExact (pyUpper (pyStrip query))) ≠ [] :=
    List.ne_nil_of_mem (List.mem_filter.mpr ⟨he, hx⟩)
  simp only [searchAEC, if_neg hguard, if_neg hne]

theorem c3_witness :
    (pyUpper (pyStrip "ent department") ≠ "" ∧ ([aecRecA] : List AECRecord) ≠ [] ∧
      ∃ e ∈ [aecRecA], aecExact (pyUpper (pyStrip "ent department")) e = true) ∧
    searchAEC constScorer [aecRecA] "ent department" =
      (([aecRecA] : List AECRecord).filter (aecExact (pyUpper (pyStrip "ent department"))),
        none) :=
  ⟨by decide,
   c3_aec_exact_phase constScorer [aecRecA] "ent department" (by decide) (by decide)
     (by decide)⟩

/-- C4: in `search_pgi`'s text phase, a department substring hit wins: when
any record's department contains the query the result is exactly those
records with no other field consulted; otherwise the phase-2b result is the
store-order filter of records in which SOME of the five fields (department,
doctors, notes, block, building) contains the query — the per-record
`find?` (first matching field, then stop) includes each record at most
once, and the result is a sublist of the store either way. -/
theorem c4_pgi_text_priority :
    ∀ (scorer : String → String → ℚ) (store : List PGIRecord) (qt ql : String),
      (store.filter (pgiDeptHit ql) ≠ [] →
        pgiTextPhase scorer store qt ql = (store.filter (pgiDeptHit ql), "")) ∧
      (store.filter (pgiDeptHit ql) = [] →
        (pgiTextPhase scorer store qt ql).1 =
          store.filter
            (fun e => (pgiTextFields e).any (fun f => pyContains ql.data (pyLower f).data)) ∧
        (pgiTextPhase scorer store qt ql).1.Sublist store) := by
  intro scorer store qt ql
  have hfe : store.filter (pgiFieldHit ql) =
      store.filter
        (fun e => (pgiTextFields e).any (fun f => pyContains ql.data (pyLower f).data)) :=
    List.filter_congr (fun e _ => by rw [pgiFieldHit, find_isSome_eq_any])
  constructor
  · intro h1
    simp only [pgiTextPhase, if_neg h1]
  · intro h1
    refine ⟨?_, pgiTextPhase_fst_sublist scorer store qt ql⟩
    rw [← hfe]
    simp only [pgiTextPhase, if_pos h1]
    by_cases h2 : store.filter (pgiFieldHit ql) = []
    · rw [if_pos h2, h2]
      split
      · split
        · rfl
        · rfl
      · rfl
    · rw [if_neg h2]

theorem c4_witness :
    (([pgiRecA] : List PGIRecord).filter (pgiDeptHit "cardio") ≠ []) ∧
    pgiTextPhase constScorer [pgiRecA] "cardio" "cardio" =
      (([pgiRecA] : List PGIRecord).filter (pgiDeptHit "cardio"), "") :=
  ⟨by decide, (c4_pgi_text_priority constScorer [pgiRecA] "cardio" "cardio").1 (by decide)⟩

/-- C6: when phases 1-3 of `searchAEC` all produce zero matches, the match
list is empty and the suggestion is the single highest-scoring candidate of
the deduplicated department/non-empty-notes pool, returned only when its
score strictly exceeds 70; `extractOne` indeed returns a pool member whose
score bounds every candidate's score. -/
theorem c6_aec_fuzzy :
    ∀ (scorer : String → String → ℚ) (store : List AECRecord) (query : String),
      pyUpper (pyStrip query) ≠ "" → store ≠ [] →
      store.filter (aecExact (pyUpper (pyStrip query))) = [] →
      store.filter (aecWholeWord (pyUpper (pyStrip query))) = [] →
      store.filter (aecSubstr (pyUpper (pyStrip query))) = [] →
      (searchAEC scorer store query).1 = [] ∧
      ((searchAEC scorer store query).2 =
        match extractOne scorer (pyUpper (pyStrip query)) (aecPool store) with
        | some m => if m.2 > 70 then some m.1 else none
        | none => none) ∧
      (∀ m, extractOne scorer (pyUpper (pyStrip query)) (aecPool store) = some m →
        m.2 = scorer (pyUpper (pyStrip query)) m.1 ∧ m.1 ∈ aecPool store ∧
        ∀ c ∈ aecPool store, scorer (pyUpper (pyStrip query)) c ≤ m.2) ∧
      (∀ s : String, s ∈ aecPool store ↔
        ((∃ e ∈ store, e.department = s) ∨ ∃ e ∈ store, e.notes = s ∧ e.notes ≠ "")) ∧
      (aecPool store).Nodup := by
  intro scorer store query hq hs h1 h2 h3
  have hguard : ¬ (pyUpper (pyStrip query) = "" ∨ store = []) := by simp [hq, hs]
  have hsearch : searchAEC scorer store query =
      ([], match extractOne scorer (pyUpper (pyStrip query)) (aecPool store) with
           | some m => if m.2 > 70 then some m.1 else none
           | none => none) := by
    simp only [searchAEC, if_neg hguard, if_pos h1, if_pos h2, if_pos h3]
    rcases extractOne scorer (pyUpper (pyStrip query)) (aecPool store) with _ | m
    · rfl
    · rfl
  refine ⟨by rw [hsearch], by rw [hsearch], ?_, ?_, List.nodup_dedup _⟩
  · intro m hm
    exact extractOne_spec scorer (pyUpper (pyStrip query)) (aecPool store) m hm
  · intro s
    simp only [aecPool, List.mem_dedup, List.mem_append, List.mem_map, List.mem_filter,
      Bool.not_eq_true', beq_eq_false_iff_ne]
    constructor
    · rintro (⟨e, he, hde⟩ | ⟨e, ⟨he, hn⟩, hns⟩)
      · exact Or.inl ⟨e, he, hde⟩
      · exact Or.inr ⟨e, he, hns, hns ▸ hn⟩
    · rintro (⟨e, he, hde⟩ | ⟨e, he, hns, hne⟩)
      · exact Or.inl ⟨e, he, hde⟩
      · exact Or.inr ⟨e, ⟨he, hns ▸ hne⟩, hns⟩

theorem c6_witness :
    (pyUpper (pyStrip "QQQQ") ≠ "" ∧ ([aecRecB] : List AECRecord) ≠ [] ∧
      ([aecRecB] : List AECRecord).filter (aecExact (pyUpper (pyStrip "QQQQ"))) = [] ∧
      ([aecRecB] : List AECRecord).filter (aecWholeWord (pyUpper (pyStrip "QQQQ"))) = [] ∧
      ([aecRecB] : List AECRecord).filter (aecSubstr (pyUpper (pyStrip "QQQQ"))) = []) ∧
    ((searchAEC constScorer [aecRecB] "QQQQ").1 = [] ∧
      ((searchAEC constScorer [aecRecB] "QQQQ").2 =
        match extractOne constScorer (pyUpper (pyStrip "QQQQ")) (aecPool [aecRecB]) with
        | some m => if m.2 > 70 then some m.1 else none
        | none => none) ∧
      (∀ m, extractOne constScorer (pyUpper (pyStrip "QQQQ")) (aecPool [aecRecB]) = some m →
        m.2 = constScorer (pyUpper (pyStrip "QQQQ")) m.1 ∧ m.1 ∈ aecPool [aecRecB] ∧
        ∀ c ∈ aecPool [aecRecB], constScorer (pyUpper (pyStrip "QQQQ")) c ≤ m.2) ∧
      (∀ s : String, s ∈ aecPool [aecRecB] ↔
        ((∃ e ∈ [aecRecB], e.department = s) ∨ ∃ e ∈ [aecRecB], e.notes = s ∧ e.notes ≠ "")) ∧
      (aecPool [aecRecB]).Nodup) :=
  ⟨⟨by decide, by decide, by decide, by decide, by decide⟩,
   c6_aec_fuzzy constScorer [aecRecB] "QQQQ" (by decide) (by decide) (by decide)
     (by decide) (by decide)⟩

/-- C8: a non-empty all-whitespace query passes `search_pgi`'s emptiness
check (made before trimming), trims to the empty string, has no digit, and
the empty string is a substring of every department, so `searchPGI` returns
the whole store with suggestion `""`; `searchAEC` trims before its check and
returns `([], none)` on the same query. -/
theorem c8_whitespace_query :
    ∀ (scorer : String → String → ℚ) (storeP : List PGIRecord)
      (storeA : List AECRecord) (q : String),
      q ≠ "" → (∀ c ∈ q.data, pySpace c = true) → storeP ≠ [] →
      searchPGI scorer storeP q = (storeP, "") ∧
      searchAEC scorer storeA q = ([], none) := by
  intro scorer storeP storeA q hq hsp hne
  have hstrip : pyStrip q = "" := by
    unfold pyStrip
    rw [stripList_eq_nil_of_all q.data hsp]
  constructor
  · have hguard : ¬ (q = "" ∨ storeP = []) := by simp [hq, hne]
    have hd : (("" : String).data.any Char.isDigit) = false := rfl
    have hl : pyLower "" = "" := rfl
    have hall : storeP.filter (pgiDeptHit "") = storeP := by
      apply List.filter_eq_self.mpr
      intro e he
      show pyContains ("" : String).data (pyLower e.department).data = true
      simp [pyContains]
    simp only [searchPGI, if_neg hguard, hstrip, hd, hl]
    simp [pgiTextPhase, hall, hne]
  · have hq2 : pyUpper (pyStrip q) = "" := by rw [hstrip]; rfl
    simp [searchAEC, hq2]

theorem c8_witness :
    (" " ≠ "" ∧ (∀ c ∈ (" " : String).data, pySpace c = true) ∧
      ([pgiRecA] : List PGIRecord) ≠ []) ∧
    (searchPGI constScorer [pgiRecA] " " = ([pgiRecA], "") ∧
      searchAEC constScorer [] " " = ([], none)) :=
  ⟨⟨by decide, by decide, by decide⟩,
   c8_whitespace_query constScorer [pgiRecA] [] " " (by decide) (by decide) (by decide)⟩
